import Mathlib

/-!
Verification of the scheduling and analytics data layer of a LinkedIn
content-operations tool.

The embedding models the SQLite-backed store of `src/db/models.py` as a pure
state (`Poster.DB`) holding the four tables (categories, posts,
metrics_snapshots, scheduled_posts) as lists of rows, together with the next
AUTOINCREMENT id for each table.  Each store operation of the source becomes a
pure function from a `DB` (plus the clock values the source reads implicitly)
to a result and an updated `DB`.  SQLite TEXT comparison (BINARY collation,
i.e. memcmp on UTF-8 bytes; all timestamps here are ASCII) is modelled by a
lexicographic comparison on the code points of the strings.
-/

namespace Poster

/-- Strict lexicographic order on lists of characters, by code point.  On the
ASCII timestamp strings used by the store this agrees with the memcmp order
SQLite uses for TEXT comparison under the default BINARY collation. -/
def lexLt : List Char → List Char → Bool
  | [], [] => false
  | [], _ :: _ => true
  | _ :: _, [] => false
  | a :: as, b :: bs =>
    a.toNat < b.toNat || (a.toNat = b.toNat && lexLt as bs)

/-- Strict SQLite TEXT comparison of two strings. -/
def textLt (s t : String) : Bool := lexLt s.data t.data

/-- Non-strict SQLite TEXT comparison of two strings (the `<=` of the
`scheduled_for <= datetime('now')` filter in `get_due_posts`). -/
def textLe (s t : String) : Bool := lexLt s.data t.data || s.data = t.data

theorem lexLt_irrefl (l : List Char) : lexLt l l = false := by
  induction l with
  | nil => rfl
  | cons a as ih => simp [lexLt, ih]

theorem lexLt_trans : ∀ {a b c : List Char},
    lexLt a b = true → lexLt b c = true → lexLt a c = true := by
  intro a
  induction a with
  | nil =>
    intro b c hab hbc
    cases b with
    | nil => simp [lexLt] at hab
    | cons y ys =>
      cases c with
      | nil => simp [lexLt] at hbc
      | cons z zs => simp [lexLt]
  | cons x xs ih =>
    intro b c hab hbc
    cases b with
    | nil => simp [lexLt] at hab
    | cons y ys =>
      cases c with
      | nil => simp [lexLt] at hbc
      | cons z zs =>
        simp only [lexLt, Bool.or_eq_true, Bool.and_eq_true, decide_eq_true_eq] at hab hbc ⊢
        rcases hab with h1 | ⟨h1, h1r⟩
        · rcases hbc with h2 | ⟨h2, _⟩
          · exact Or.inl (Nat.lt_trans h1 h2)
          · exact Or.inl (h2 ▸ h1)
        · rcases hbc with h2 | ⟨h2, h2r⟩
          · exact Or.inl (h1 ▸ h2)
          · exact Or.inr ⟨h1.trans h2, ih h1r h2r⟩

theorem lexLt_total : ∀ {a b : List Char},
    lexLt a b = false → a = b ∨ lexLt b a = true := by
  intro a
  induction a with
  | nil =>
    intro b h
    cases b with
    | nil => exact Or.inl rfl
    | cons y ys => simp [lexLt] at h
  | cons x xs ih =>
    intro b h
    cases b with
    | nil => exact Or.inr (by simp [lexLt])
    | cons y ys =>
      simp only [lexLt, Bool.or_eq_false_iff, Bool.and_eq_false_iff,
        decide_eq_false_iff_not, decide_eq_true_eq] at h
      obtain ⟨h1, h2⟩ := h
      rcases Nat.lt_or_ge y.toNat x.toNat with hlt | hge
      · exact Or.inr (by simp [lexLt, hlt])
      · have heq : x.toNat = y.toNat := Nat.le_antisymm hge (Nat.le_of_not_lt h1)
        rcases h2 with h2 | h2
        · exact absurd heq h2
        · rcases ih h2 with rfl | h3
          · have hxy : x = y := Char.ext (UInt32.toNat.inj heq)
            exact Or.inl (by rw [hxy])
          · exact Or.inr (by simp [lexLt, heq, h3])

theorem textLe_refl (s : String) : textLe s s = true := by
  simp [textLe]

theorem textLt_ne {s t : String} (h : textLt s t = true) : s ≠ t := by
  intro heq
  rw [heq] at h
  simp [textLt, lexLt_irrefl] at h

theorem textLe_of_textLt {s t : String} (h : textLt s t = true) : textLe s t = true := by
  simp [textLe, textLt] at h ⊢
  exact Or.inl h

theorem textLe_of_not_textLt {s t : String} (h : textLt s t = false) :
    textLe t s = true := by
  simp only [textLt] at h
  rcases lexLt_total h with heq | hlt
  · simp [textLe, heq]
  · simp [textLe, hlt]

theorem textLe_trans {a b c : String} (h1 : textLe a b = true)
    (h2 : textLe b c = true) : textLe a c = true := by
  simp only [textLe, Bool.or_eq_true, decide_eq_true_eq] at h1 h2 ⊢
  rcases h1 with h1 | h1
  · rcases h2 with h2 | h2
    · exact Or.inl (lexLt_trans h1 h2)
    · exact Or.inl (h2 ▸ h1)
  · rcases h2 with h2 | h2
    · exact Or.inl (by rw [h1]; exact h2)
    · exact Or.inr (h1.trans h2)

theorem textLe_antisymm {s t : String} (h1 : textLe s t = true)
    (h2 : textLe t s = true) : s = t := by
  simp only [textLe, Bool.or_eq_true, decide_eq_true_eq] at h1 h2
  rcases h1 with h1 | h1
  · rcases h2 with h2 | h2
    · have h3 := lexLt_trans h1 h2
      rw [lexLt_irrefl] at h3
      exact absurd h3 (by simp)
    · cases s; cases t
      simp_all
  · cases s; cases t
    simp_all

/-- Python string slicing `s[:n]`, which takes the first `n` code points. -/
def pyTruncate (s : String) (n : Nat) : String := String.mk (s.data.take n)

/-! ## Data model: the four tables of `SCHEMA` in `src/db/models.py` -/

/-- A row of the `categories` table. -/
structure Category where
  id : Nat
  name : String
deriving DecidableEq

/-- A row of the `posts` table. -/
structure Post where
  id : Nat
  linkedin_urn : String
  category_id : Option Nat
  content_preview : String
  article_url : Option String
  visibility : String
  posted_at : String
deriving DecidableEq

/-- A row of the `metrics_snapshots` table.  The counters are modelled as
naturals: the data model declares them as non-negative integers
(`DEFAULT 0`). -/
structure Snapshot where
  id : Nat
  post_id : Nat
  fetched_at : String
  impressions : Nat
  reactions : Nat
  comments : Nat
  shares : Nat
  clicks : Nat
  profile_views : Nat
  follower_gains : Nat
deriving DecidableEq

/-- A row of the `scheduled_posts` table. -/
structure SchedRow where
  id : Nat
  content : String
  category_name : String
  article_url : Option String
  visibility : String
  scheduled_for : String
  status : String
  linkedin_urn : Option String
  error_message : Option String
deriving DecidableEq

/-- The whole store: the four tables plus the next AUTOINCREMENT id of each
(SQLite AUTOINCREMENT ids start at 1 and are never reused). -/
structure DB where
  categories : List Category
  posts : List Post
  snapshots : List Snapshot
  scheduled : List SchedRow
  next_category_id : Nat
  next_post_id : Nat
  next_snapshot_id : Nat
  next_scheduled_id : Nat
deriving DecidableEq

/-- The store created by `init_db` on a fresh file: four empty tables. -/
def emptyDB : DB := ⟨[], [], [], [], 1, 1, 1, 1⟩

/-! ## Store operations (`src/db/models.py`) -/

/-- Embeds `get_or_create_category` (models.py:85): look up the id by name,
inserting a fresh row when absent; returns `cursor.lastrowid` on insert. -/
def get_or_create_category (name : String) (db : DB) : Nat × DB :=
  match db.categories.find? (fun c => c.name == name) with
  | some c => (c.id, db)
  | none =>
    (db.next_category_id,
      { db with
        categories := db.categories ++ [⟨db.next_category_id, name⟩],
        next_category_id := db.next_category_id + 1 })

/-- Embeds `save_post` (models.py:95): resolves or creates the category, then
inserts the post with `content_preview[:200]` and
`posted_at = datetime.now().isoformat()` (passed here as `now_iso`).  The
UNIQUE constraint on `posts.linkedin_urn` makes the INSERT raise
`sqlite3.IntegrityError` when the urn already exists; that exception is the
`Except.error` branch.  The category side effect has already been committed by
its own connection when the INSERT fails, so the error branch keeps it. -/
def save_post (linkedin_urn category_name content_preview : String)
    (article_url : Option String) (visibility : String) (now_iso : String)
    (db : DB) : Except String Nat × DB :=
  let category_id := (get_or_create_category category_name db).1
  let db1 := (get_or_create_category category_name db).2
  if db1.posts.any (fun p => p.linkedin_urn == linkedin_urn) then
    (Except.error "UNIQUE constraint failed: posts.linkedin_urn", db1)
  else
    (Except.ok db1.next_post_id,
      { db1 with
        posts := db1.posts ++
          [⟨db1.next_post_id, linkedin_urn, some category_id,
            pyTruncate content_preview 200, article_url, visibility, now_iso⟩],
        next_post_id := db1.next_post_id + 1 })

/-- Python truthiness of the optional `post_id: int` argument: the branch
`if post_id:` in `save_metrics` is taken only when the id is present and
nonzero. -/
def truthyNat : Option Nat → Bool
  | some n => n != 0
  | none => false

/-- Python truthiness of the optional `linkedin_urn: str` argument: the branch
`elif linkedin_urn:` is taken only when the urn is present and non-empty. -/
def truthyStr : Option String → Bool
  | some s => s != ""
  | none => false

/-- Shared tail of `save_metrics`: `if not row: return None` followed by the
INSERT of the snapshot (`fetched_at` defaults to `datetime('now')`, passed
here as `now`). -/
def saveMetricsRow (row : Option Post)
    (impressions reactions comments shares clicks profile_views follower_gains : Nat)
    (now : String) (db : DB) : Option Nat × DB :=
  match row with
  | none => (none, db)
  | some p =>
    (some db.next_snapshot_id,
      { db with
        snapshots := db.snapshots ++
          [⟨db.next_snapshot_id, p.id, now, impressions, reactions, comments,
            shares, clicks, profile_views, follower_gains⟩],
        next_snapshot_id := db.next_snapshot_id + 1 })

/-- Embeds `save_metrics` (models.py:142): `if post_id:` looks the post up by
id, `elif linkedin_urn:` by urn, `else: return None`; then
`if not row: return None`, else INSERT the snapshot and return its id. -/
def save_metrics (linkedin_urn : Option String) (post_id : Option Nat)
    (impressions reactions comments shares clicks profile_views follower_gains : Nat)
    (now : String) (db : DB) : Option Nat × DB :=
  if truthyNat post_id then
    saveMetricsRow (db.posts.find? (fun p => some p.id == post_id))
      impressions reactions comments shares clicks profile_views follower_gains now db
  else if truthyStr linkedin_urn then
    saveMetricsRow (db.posts.find? (fun p => some p.linkedin_urn == linkedin_urn))
      impressions reactions comments shares clicks profile_views follower_gains now db
  else
    (none, db)

/-- The snapshots of one post: `WHERE post_id = ?`. -/
def snapshotsOf (db : DB) (pid : Nat) : List Snapshot :=
  db.snapshots.filter (fun s => s.post_id == pid)

/-- Maximum of a list of timestamp strings under SQLite TEXT comparison; the
tie-break and traversal order are irrelevant because the claims assume
distinct timestamps. -/
def listMax : List String → Option String
  | [] => none
  | t :: ts =>
    match listMax ts with
    | none => some t
    | some m => if textLt t m then some m else some t

/-- The `MAX(fetched_at) ... GROUP BY post_id` value for one post. -/
def maxFetched (db : DB) (pid : Nat) : Option String :=
  listMax ((snapshotsOf db pid).map (fun s => s.fetched_at))

/-- Embeds `get_latest_metrics` (models.py:178): join snapshots to the post
with the given urn, `ORDER BY fetched_at DESC LIMIT 1`.  SQLite leaves the
choice among tied rows unspecified; the model takes the first row attaining
the maximum (the claims assume distinct timestamps, where it is unique). -/
def get_latest_metrics (linkedin_urn : String) (db : DB) : Option Snapshot :=
  match db.posts.find? (fun p => p.linkedin_urn == linkedin_urn) with
  | none => none
  | some p =>
    (snapshotsOf db p.id).find?
      (fun s => maxFetched db p.id == some s.fetched_at)

/-- The `latest` subquery of `get_category_stats` and
`get_posts_with_metrics`: snapshot rows whose `fetched_at` equals the
per-post maximum (`ms1 INNER JOIN (SELECT post_id, MAX(fetched_at) ...)`). -/
def latestRows (db : DB) : List Snapshot :=
  db.snapshots.filter (fun s => maxFetched db s.post_id == some s.fetched_at)

/-- The posts of one category: `LEFT JOIN posts p ON c.id = p.category_id`. -/
def postsOf (db : DB) (cid : Nat) : List Post :=
  db.posts.filter (fun p => p.category_id == some cid)

/-- One `COALESCE(SUM(latest.x), 0)` aggregate of `get_category_stats`: over
the rows of the category joined with the `latest` subquery, i.e. per post the
latest rows matching its id (SUM ignores the NULLs of posts with no
snapshot). -/
def sumLatest (db : DB) (cid : Nat) (f : Snapshot → Nat) : Nat :=
  ((postsOf db cid).map
    (fun p => (((latestRows db).filter (fun s => s.post_id == p.id)).map f).sum)).sum

/-- Half-up rounding of the fraction `a / b` of naturals:
`(2*a + b) / (2*b) = round(a/b)`.  SQLite ROUND rounds half away from zero,
which agrees with half-up on the non-negative values occurring here. -/
def roundDiv (a b : Nat) : Nat := (2 * a + b) / (2 * b)

/-- One output row of `get_category_stats`.  The source computes
`ROUND(x, 1)` and `ROUND(x, 2)` as floats; the model carries the averages in
tenths and the engagement rate in hundredths, exactly. -/
structure StatsRow where
  category : String
  post_count : Nat
  total_impressions : Nat
  total_reactions : Nat
  total_comments : Nat
  total_shares : Nat
  total_clicks : Nat
  avg_impressions_x10 : Nat
  avg_reactions_x10 : Nat
  avg_comments_x10 : Nat
  engagement_rate_x100 : Nat
deriving DecidableEq

/-- The row of `get_category_stats` (models.py:196) for one category:
`COUNT(DISTINCT p.id)`, the five `COALESCE(SUM(latest.x), 0)` totals, the
guarded rounded averages, and the guarded rounded engagement rate
`(reactions + comments + shares) / impressions * 100`. -/
def statsRow (db : DB) (c : Category) : StatsRow :=
  let pc := (postsOf db c.id).length
  let ti := sumLatest db c.id (fun s => s.impressions)
  let tr := sumLatest db c.id (fun s => s.reactions)
  let tc := sumLatest db c.id (fun s => s.comments)
  let ts := sumLatest db c.id (fun s => s.shares)
  let tk := sumLatest db c.id (fun s => s.clicks)
  { category := c.name
    post_count := pc
    total_impressions := ti
    total_reactions := tr
    total_comments := tc
    total_shares := ts
    total_clicks := tk
    avg_impressions_x10 := if 0 < pc then roundDiv (ti * 10) pc else 0
    avg_reactions_x10 := if 0 < pc then roundDiv (tr * 10) pc else 0
    avg_comments_x10 := if 0 < pc then roundDiv (tc * 10) pc else 0
    engagement_rate_x100 := if 0 < ti then roundDiv ((tr + tc + ts) * 10000) ti else 0 }

/-- Embeds `get_category_stats` (models.py:191): one row per category
(`GROUP BY c.id`, left joins keep empty categories), ordered by total
impressions descending (`ORDER BY total_impressions DESC`; ties in
unspecified order). -/
def get_category_stats (db : DB) : List StatsRow :=
  List.insertionSort
    (fun r1 r2 => r2.total_impressions ≤ r1.total_impressions)
    (db.categories.map (statsRow db))

/-! ## Scheduling operations (`src/db/models.py`, scheduling section) -/

/-- Embeds `schedule_post` (models.py:272): INSERT with status DEFAULT
`pending`, urn and error NULL; always succeeds and returns the new id. -/
def schedule_post (content category_name scheduled_for : String)
    (article_url : Option String) (visibility : String) (db : DB) : Nat × DB :=
  (db.next_scheduled_id,
    { db with
      scheduled := db.scheduled ++
        [⟨db.next_scheduled_id, content, category_name, article_url, visibility,
          scheduled_for, "pending", none, none⟩],
      next_scheduled_id := db.next_scheduled_id + 1 })

/-- Embeds `get_due_posts` (models.py:292):
`WHERE status = 'pending' AND scheduled_for <= datetime('now') ORDER BY
scheduled_for ASC`.  The clock value SQLite substitutes for
`datetime('now')` is passed as `now_sql`; it has the format
`YYYY-MM-DD HH:MM:SS` (UTC, space separator), and the comparison with the
stored TEXT column is the string comparison `textLe`. -/
def get_due_posts (db : DB) (now_sql : String) : List SchedRow :=
  List.insertionSort
    (fun r1 r2 => textLe r1.scheduled_for r2.scheduled_for = true)
    (db.scheduled.filter
      (fun r => r.status == "pending" && textLe r.scheduled_for now_sql))

/-- Embeds `mark_published` (models.py:303): UPDATE of status and urn on the
rows with the given id (no guard on the current status). -/
def mark_published (scheduled_id : Nat) (linkedin_urn : String) (db : DB) : DB :=
  { db with
    scheduled := db.scheduled.map
      (fun r =>
        if r.id == scheduled_id then
          { r with status := "published", linkedin_urn := some linkedin_urn }
        else r) }

/-- Embeds `mark_failed` (models.py:312): UPDATE of status and error message
on the rows with the given id (no guard on the current status). -/
def mark_failed (scheduled_id : Nat) (error : String) (db : DB) : DB :=
  { db with
    scheduled := db.scheduled.map
      (fun r =>
        if r.id == scheduled_id then
          { r with status := "failed", error_message := some error }
        else r) }

/-- Embeds `delete_scheduled` (models.py:335): DELETE rows matching
`id = ? AND status = 'pending'`; the boolean is `cursor.rowcount > 0`. -/
def delete_scheduled (scheduled_id : Nat) (db : DB) : Bool × DB :=
  let remaining := db.scheduled.filter
    (fun r => !(r.id == scheduled_id && r.status == "pending"))
  (decide (remaining.length < db.scheduled.length),
    { db with scheduled := remaining })

/-! ## The scheduling engine (`src/api/scheduler.py`) -/

/-- Outcome of one `publish_due_posts` run: the returned counters, the final
store, and the event trace of terminal status UPDATEs — one `(id, status)`
entry per `mark_published` or `mark_failed` call, in execution order. -/
structure RunResult where
  published : Nat
  failed : Nat
  db : DB
  log : List (Nat × String)
deriving DecidableEq

/-- The loop body of `publish_due_posts` (scheduler.py:22): for each due item
invoke the publish collaborator (`pub`, covering both `create_text_post` and
`create_article_post`; its `Except.error` is the raised exception).  On
success `mark_published` then `save_post`; `save_post` may itself raise (the
urn UNIQUE constraint), and any exception in the `try` body — from the
publish call or from `save_post` — lands in the `except` branch, which calls
`mark_failed` and counts the item as failed. -/
def processDue (pub : SchedRow → Except String String) (now_iso : String) :
    List SchedRow → DB → RunResult
  | [], db => ⟨0, 0, db, []⟩
  | post :: rest, db =>
    match pub post with
    | Except.error e =>
      let db1 := mark_failed post.id e db
      let r := processDue pub now_iso rest db1
      ⟨r.published, r.failed + 1, r.db, (post.id, "failed") :: r.log⟩
    | Except.ok urn =>
      let db1 := mark_published post.id urn db
      match save_post urn post.category_name post.content post.article_url
          post.visibility now_iso db1 with
      | (Except.ok _, db2) =>
        let r := processDue pub now_iso rest db2
        ⟨r.published + 1, r.failed, r.db, (post.id, "published") :: r.log⟩
      | (Except.error e, db2) =>
        let db3 := mark_failed post.id e db2
        let r := processDue pub now_iso rest db3
        ⟨r.published, r.failed + 1, r.db,
          (post.id, "published") :: (post.id, "failed") :: r.log⟩

/-- Embeds `publish_due_posts` (scheduler.py:12): fetch the due items and
process them in order, returning `(published, failed)` with the final store
and the status-write trace. -/
def publish_due_posts (pub : SchedRow → Except String String)
    (now_sql now_iso : String) (db : DB) : RunResult :=
  processDue pub now_iso (get_due_posts db now_sql) db

/-! ## Derived lemmas on the embedding -/

theorem listMax_eq_none : ∀ {l : List String}, listMax l = none ↔ l = [] := by
  intro l
  cases l with
  | nil => simp [listMax]
  | cons t ts =>
    simp only [listMax]
    cases listMax ts with
    | none => simp
    | some m =>
      by_cases h : textLt t m = true <;> simp [h]

theorem listMax_mem : ∀ {l : List String} {m : String}, listMax l = some m → m ∈ l := by
  intro l
  induction l with
  | nil => intro m h; simp [listMax] at h
  | cons t ts ih =>
    intro m h
    simp only [listMax] at h
    cases h2 : listMax ts with
    | none =>
      rw [h2] at h
      simp at h
      simp [h]
    | some m0 =>
      rw [h2] at h
      have h3 : (if textLt t m0 = true then some m0 else some t) = some m := h
      split at h3
      · have hm : m0 = m := by simpa using h3
        exact List.mem_cons_of_mem t (ih (hm ▸ h2))
      · have hm : t = m := by simpa using h3
        simp [hm]

theorem listMax_le : ∀ {l : List String} {x m : String},
    x ∈ l → listMax l = some m → textLe x m = true := by
  intro l
  induction l with
  | nil => intro x m hx; simp at hx
  | cons t ts ih =>
    intro x m hx h
    simp only [listMax] at h
    cases h2 : listMax ts with
    | none =>
      rw [h2] at h
      have hts : ts = [] := listMax_eq_none.mp h2
      have hm : t = m := by simpa using h
      subst hts
      have hxt : x = t := by simpa using hx
      subst hxt
      exact hm ▸ textLe_refl x
    | some m0 =>
      rw [h2] at h
      have h3 : (if textLt t m0 = true then some m0 else some t) = some m := h
      split at h3
      next hlt =>
        have hm : m0 = m := by simpa using h3
        subst hm
        rcases List.mem_cons.mp hx with rfl | hx2
        · exact textLe_of_textLt hlt
        · exact ih hx2 h2
      next hlt =>
        have hm : t = m := by simpa using h3
        subst hm
        rcases List.mem_cons.mp hx with rfl | hx2
        · exact textLe_refl x
        · exact textLe_trans (ih hx2 h2)
            (textLe_of_not_textLt (Bool.eq_false_iff.mpr hlt))

theorem eq_of_mem_map_nodup {α β : Type} (f : α → β) :
    ∀ {l : List α} {a x : α},
      (l.map f).Nodup → a ∈ l → x ∈ l → f x = f a → x = a := by
  intro l
  induction l with
  | nil => intro a x _ ha; simp at ha
  | cons y ys ih =>
    intro a x hnd ha hx hf
    simp only [List.map_cons, List.nodup_cons] at hnd
    obtain ⟨hy, htl⟩ := hnd
    rcases List.mem_cons.mp ha with rfl | ha2
    · rcases List.mem_cons.mp hx with rfl | hx2
      · rfl
      · exact absurd (hf ▸ List.mem_map_of_mem f hx2) hy
    · rcases List.mem_cons.mp hx with rfl | hx2
      · exact absurd (hf ▸ List.mem_map_of_mem f ha2) (by simpa [hf] using hy)
      · exact ih htl ha2 hx2 hf

theorem filter_map_nodup_eq {α β : Type} [DecidableEq β] (f : α → β) :
    ∀ {l : List α} {a : α},
      (l.map f).Nodup → a ∈ l → l.filter (fun x => f x == f a) = [a] := by
  intro l
  induction l with
  | nil => intro a _ ha; simp at ha
  | cons y ys ih =>
    intro a hnd ha
    simp only [List.map_cons, List.nodup_cons] at hnd
    obtain ⟨hy, htl⟩ := hnd
    rcases List.mem_cons.mp ha with rfl | ha2
    · have hnil : ys.filter (fun x => f x == f a) = [] := by
        rw [List.filter_eq_nil_iff]
        intro x hx
        simp only [beq_iff_eq]
        intro hfx
        exact hy (hfx ▸ List.mem_map_of_mem f hx)
      simp [List.filter_cons, hnil]
    · have hne : (f y == f a) = false := by
        simp only [beq_eq_false_iff_ne, ne_eq]
        intro hfy
        exact hy (hfy ▸ List.mem_map_of_mem f ha2)
      simp [List.filter_cons, hne, ih htl ha2]

theorem find?_unique {α : Type} (p : α → Bool) :
    ∀ {l : List α} {a : α},
      a ∈ l → p a = true → (∀ x ∈ l, p x = true → x = a) → l.find? p = some a := by
  intro l
  induction l with
  | nil => intro a ha; simp at ha
  | cons y ys ih =>
    intro a ha hpa huniq
    by_cases hpy : p y = true
    · have hya : y = a := huniq y (List.mem_cons_self y ys) hpy
      subst hya
      simp [List.find?_cons, hpy]
    · have hne : y ≠ a := fun h => hpy (h ▸ hpa)
      have ha2 : a ∈ ys := by
        rcases List.mem_cons.mp ha with rfl | h
        · exact absurd rfl hne
        · exact h
      rw [List.find?_cons_of_neg _ hpy]
      exact ih ha2 hpa (fun x hx hpx => huniq x (List.mem_cons_of_mem y hx) hpx)

theorem roundDiv_eq_round (a b : ℕ) (hb : 0 < b) :
    ((roundDiv a b : ℕ) : ℤ) = round ((a : ℚ) / (b : ℚ)) := by
  rw [round_eq]
  have h1 : (a : ℚ) / (b : ℚ) + 1 / 2 = ((2 * a + b : ℕ) : ℚ) / ((2 * b : ℕ) : ℚ) := by
    have hb0 : ((b : ℚ)) ≠ 0 := by
      exact_mod_cast Nat.pos_iff_ne_zero.mp hb
    push_cast
    field_simp
    ring
  rw [h1]
  have h2 : ⌊((2 * a + b : ℕ) : ℚ) / ((2 * b : ℕ) : ℚ)⌋₊ = (2 * a + b) / (2 * b) := by
    rw [Nat.floor_div_nat, Nat.floor_natCast]
  have h3 : (0 : ℚ) ≤ ((2 * a + b : ℕ) : ℚ) / ((2 * b : ℕ) : ℚ) := by positivity
  rw [← Int.natCast_floor_eq_floor h3, h2]
  rfl

theorem goc_posts_eq (name : String) (db : DB) :
    (get_or_create_category name db).2.posts = db.posts ∧
    (get_or_create_category name db).2.next_post_id = db.next_post_id := by
  unfold get_or_create_category
  cases h : db.categories.find? (fun c => c.name == name) <;> simp

/-! ## Claims -/

/-- C1, a store in which the CLI scheduled one post for 09:00 on 2026-02-11
(`cmd_schedule` stores `datetime.isoformat()`, with the `T` separator). -/
def dbC1 : DB :=
  { emptyDB with
    scheduled := [⟨1, "Hello", "Eng", none, "PUBLIC", "2026-02-11T09:00:00",
      "pending", none, none⟩],
    next_scheduled_id := 2 }

/-- C1: the claim that a pending ScheduledPost with scheduled_for <= now is
included in getDuePosts FAILS on the code for scheduled_for values as the
system stores them.  The stored value uses the ISO `T` separator while
SQLite `datetime('now')` uses a space, and `T` compares greater than a
space, so at clock value 2026-02-11 10:00:00 the post scheduled for 09:00
the same day — chronologically due, as the textLe comparison of the two ISO
renderings shows — is excluded from the due list. -/
theorem get_due_posts_same_day_bug :
    (∀ r ∈ dbC1.scheduled, r.status = "pending") ∧
    textLe "2026-02-11T09:00:00" "2026-02-11T10:00:00" = true ∧
    get_due_posts dbC1 "2026-02-11 10:00:00" = [] := by decide

/-- C10: calling save_metrics with neither identifier returns None without
inserting anything: the store is returned unchanged. -/
theorem save_metrics_no_identifier (db : DB)
    (imp rea com sha cli pv fg : Nat) (now : String) :
    save_metrics none none imp rea com sha cli pv fg now db = (none, db) := rfl

/-- C6: in every stats row, the engagement rate is 0 whenever the impression
total is 0 (no division-by-zero fault), and whenever the impression total is
positive it is `(reactions + comments + shares) / impressions * 100` rounded
to 2 decimal places — the stored hundredths value equals the rounded
rational, half away from zero as SQLite ROUND does on these non-negative
values. -/
theorem engagement_rate_correct (db : DB) (c : Category) :
    ((statsRow db c).total_impressions = 0 →
      (statsRow db c).engagement_rate_x100 = 0) ∧
    (0 < (statsRow db c).total_impressions →
      (((statsRow db c).engagement_rate_x100 : ℕ) : ℤ) =
        round (((((statsRow db c).total_reactions +
            (statsRow db c).total_comments +
            (statsRow db c).total_shares : ℕ) : ℚ) /
          (((statsRow db c).total_impressions : ℕ) : ℚ)) * 100 * 100)) := by
  constructor
  · intro h
    simp only [statsRow] at h ⊢
    simp [h]
  · intro h
    simp only [statsRow] at h ⊢
    rw [if_pos h, roundDiv_eq_round _ _ h]
    congr 1
    push_cast
    ring

/-- C6 witness: the spec scenario — one post with snapshot
{impressions 100, reactions 10, comments 5, shares 5} gives engagement rate
20.00 percent, i.e. 2000 hundredths. -/
def dbC6 : DB :=
  { emptyDB with
    categories := [⟨1, "Eng"⟩],
    posts := [⟨1, "u1", some 1, "p1", none, "PUBLIC", "2026-01-01T00:00:00"⟩],
    snapshots := [⟨1, 1, "2026-01-02 00:00:00", 100, 10, 5, 5, 0, 0, 0⟩],
    next_category_id := 2, next_post_id := 2, next_snapshot_id := 2 }

theorem engagement_rate_correct_witness :
    0 < (statsRow dbC6 ⟨1, "Eng"⟩).total_impressions ∧
    (((statsRow dbC6 ⟨1, "Eng"⟩).engagement_rate_x100 : ℕ) : ℤ) =
      round ((((statsRow dbC6 ⟨1, "Eng"⟩).total_reactions +
          (statsRow dbC6 ⟨1, "Eng"⟩).total_comments +
          (statsRow dbC6 ⟨1, "Eng"⟩).total_shares : ℕ) : ℚ) /
        (((statsRow dbC6 ⟨1, "Eng"⟩).total_impressions : ℕ) : ℚ) * 100 * 100) :=
  ⟨by decide, (engagement_rate_correct dbC6 ⟨1, "Eng"⟩).2 (by decide)⟩

/-- C7, a store tracking one post with id 1 and urn "u". -/
def dbC7 : DB :=
  { emptyDB with
    posts := [⟨1, "u", none, "p", none, "PUBLIC", "t"⟩],
    next_post_id := 2 }

/-- C7 counterexample: with post_id = 0 and a urn that matches a tracked
post, the claim says the post id takes precedence, id 0 matches no post, and
the result is NotFound with no snapshot created; the code instead falls
through Python truthiness (`if post_id:` is false for 0), resolves by the
urn, inserts a snapshot and returns its id. -/
theorem save_metrics_zero_id_counterexample :
    (save_metrics (some "u") (some 0) 1 2 3 4 5 6 7 "now" dbC7).1 = some 1 ∧
    (save_metrics (some "u") (some 0) 1 2 3 4 5 6 7 "now" dbC7).2.snapshots ≠ [] := by
  decide

/-- The resolution rule save_metrics actually implements (the amended claim):
a post id that is present and nonzero takes precedence; otherwise a urn that
is present and non-empty is used; otherwise no post is resolved. -/
def resolveTarget (db : DB) (linkedin_urn : Option String)
    (post_id : Option Nat) : Option Post :=
  if truthyNat post_id then
    db.posts.find? (fun p => some p.id == post_id)
  else if truthyStr linkedin_urn then
    db.posts.find? (fun p => some p.linkedin_urn == linkedin_urn)
  else none

/-- C7 amended: save_metrics resolves the target post by the amended
precedence rule (nonzero post id first, then non-empty urn; a given but zero
post id is treated as absent); when no post is resolved it returns None as a
normal result with the store unchanged — no snapshot row is created — and
when a post is resolved it returns the new snapshot id and appends exactly
one snapshot row for that post. -/
theorem save_metrics_resolution (db : DB) (urn : Option String)
    (pid : Option Nat) (imp rea com sha cli pv fg : Nat) (now : String) :
    save_metrics urn pid imp rea com sha cli pv fg now db =
      saveMetricsRow (resolveTarget db urn pid) imp rea com sha cli pv fg now db ∧
    (resolveTarget db urn pid = none →
      save_metrics urn pid imp rea com sha cli pv fg now db = (none, db)) ∧
    (∀ p : Post, resolveTarget db urn pid = some p →
      (save_metrics urn pid imp rea com sha cli pv fg now db).1 =
        some db.next_snapshot_id ∧
      (save_metrics urn pid imp rea com sha cli pv fg now db).2.snapshots =
        db.snapshots ++ [⟨db.next_snapshot_id, p.id, now, imp, rea, com, sha,
          cli, pv, fg⟩]) := by
  have key : save_metrics urn pid imp rea com sha cli pv fg now db =
      saveMetricsRow (resolveTarget db urn pid) imp rea com sha cli pv fg now db := by
    unfold save_metrics resolveTarget
    by_cases h1 : truthyNat pid = true
    · simp [h1]
    · by_cases h2 : truthyStr urn = true
      · simp [h1, h2]
      · simp [h1, h2, saveMetricsRow]
  refine ⟨key, fun h => by rw [key, h]; rfl, fun p hp => by rw [key, hp]; exact ⟨rfl, rfl⟩⟩

/-- C7 witness: a nonzero post id matching no post wins over a urn that does
match one, and yields NotFound with the store unchanged. -/
theorem save_metrics_resolution_witness :
    resolveTarget dbC7 (some "u") (some 2) = none ∧
    save_metrics (some "u") (some 2) 1 2 3 4 5 6 7 "now" dbC7 = (none, dbC7) :=
  ⟨by decide,
    (save_metrics_resolution dbC7 (some "u") (some 2) 1 2 3 4 5 6 7 "now").2.1
      (by decide)⟩

/-- C8: save_post stores the content preview truncated to its first 200 code
points (Python `content_preview[:200]`), stamps posted_at with the current
local time, and when the urn is already tracked the INSERT fails with the
UNIQUE constraint violation and no post row is inserted or updated. -/
theorem save_post_truncates_and_unique (db : DB) (urn cat prev : String)
    (url : Option String) (vis now : String) :
    ((∀ p ∈ db.posts, p.linkedin_urn ≠ urn) →
      ∃ newp : Post,
        (save_post urn cat prev url vis now db).2.posts = db.posts ++ [newp] ∧
        (save_post urn cat prev url vis now db).1 = Except.ok newp.id ∧
        newp.content_preview = pyTruncate prev 200 ∧
        newp.posted_at = now ∧
        newp.linkedin_urn = urn) ∧
    ((∃ p ∈ db.posts, p.linkedin_urn = urn) →
      (save_post urn cat prev url vis now db).1 =
        Except.error "UNIQUE constraint failed: posts.linkedin_urn" ∧
      (save_post urn cat prev url vis now db).2.posts = db.posts) := by
  obtain ⟨hposts, hnext⟩ := goc_posts_eq cat db
  constructor
  · intro hfresh
    have hany : (get_or_create_category cat db).2.posts.any
        (fun p => p.linkedin_urn == urn) = false := by
      rw [hposts, List.any_eq_false]
      intro p hp
      simp [hfresh p hp]
    refine ⟨⟨db.next_post_id, urn, some (get_or_create_category cat db).1,
      pyTruncate prev 200, url, vis, now⟩, ?_, ?_, rfl, rfl, rfl⟩
    · simp only [save_post, hany]
      simp [hposts, hnext]
    · simp only [save_post, hany]
      simp [hnext]
  · rintro ⟨p, hp, hurn⟩
    have hany : (get_or_create_category cat db).2.posts.any
        (fun p => p.linkedin_urn == urn) = true := by
      rw [hposts, List.any_eq_true]
      exact ⟨p, hp, by simp [hurn]⟩
    constructor
    · simp only [save_post, hany]
      simp
    · simp only [save_post, hany]
      simp [hposts]

/-- C8 witness: on the tracked store dbC7 a fresh urn insert succeeds with a
truncated preview and the supplied timestamp, and re-saving urn "u" fails
with the constraint error leaving the posts table unchanged. -/
theorem save_post_truncates_and_unique_witness :
    (∃ p ∈ dbC7.posts, p.linkedin_urn = "u") ∧
    (save_post "u" "Eng" "text" none "PUBLIC" "2026-01-01T00:00:00" dbC7).1 =
      Except.error "UNIQUE constraint failed: posts.linkedin_urn" ∧
    (save_post "u" "Eng" "text" none "PUBLIC" "2026-01-01T00:00:00" dbC7).2.posts =
      dbC7.posts :=
  ⟨by decide,
    (save_post_truncates_and_unique dbC7 "u" "Eng" "text" none "PUBLIC"
      "2026-01-01T00:00:00").2 (by decide)⟩

theorem find?_append_none {α : Type} (p : α → Bool) :
    ∀ {l1 : List α} (l2 : List α), l1.find? p = none →
      (l1 ++ l2).find? p = l2.find? p := by
  intro l1
  induction l1 with
  | nil => intro l2 _; rfl
  | cons y ys ih =>
    intro l2 h
    have hy : ¬p y = true := by
      intro hp
      rw [List.find?_cons_of_pos _ hp] at h
      cases h
    rw [List.cons_append, List.find?_cons_of_neg _ hy]
    apply ih
    rwa [List.find?_cons_of_neg _ hy] at h

/-- Number of category rows carrying a given name (the name has a UNIQUE
constraint, so a well-formed store has at most one). -/
def countNamed (db : DB) (name : String) : Nat :=
  (db.categories.filter (fun c => c.name == name)).length

theorem goc_found {db : DB} {name : String} {c : Category}
    (h : db.categories.find? (fun x => x.name == name) = some c) :
    get_or_create_category name db = (c.id, db) := by
  unfold get_or_create_category
  rw [h]

/-- Iterated get_or_create_category: the ids returned by n successive calls
with the same name, and the final store. -/
def gocN : Nat → String → DB → List Nat × DB
  | 0, _, db => ([], db)
  | n + 1, name, db =>
    let i := (get_or_create_category name db).1
    let db1 := (get_or_create_category name db).2
    let r := gocN n name db1
    (i :: r.1, r.2)

theorem gocN_stable {db : DB} {name : String} {c : Category}
    (h : db.categories.find? (fun x => x.name == name) = some c) :
    ∀ n, gocN n name db = (List.replicate n c.id, db) := by
  intro n
  induction n with
  | zero => rfl
  | succ m ih =>
    simp only [gocN, goc_found h, ih, List.replicate_succ]

theorem goc_after (db : DB) (name : String) (hwf : countNamed db name ≤ 1) :
    ∃ c : Category,
      (get_or_create_category name db).2.categories.find?
        (fun x => x.name == name) = some c ∧
      c.id = (get_or_create_category name db).1 ∧
      countNamed (get_or_create_category name db).2 name = 1 := by
  cases h : db.categories.find? (fun x => x.name == name) with
  | some c =>
    have hc := List.mem_of_find?_eq_some h
    have hpc := List.find?_some h
    have hmem : c ∈ db.categories.filter (fun x => x.name == name) :=
      List.mem_filter.mpr ⟨hc, hpc⟩
    have h1 : 0 < countNamed db name := List.length_pos_of_mem hmem
    refine ⟨c, ?_, ?_, ?_⟩
    · rw [goc_found h]
      exact h
    · rw [goc_found h]
    · rw [goc_found h]
      show countNamed db name = 1
      omega
  | none =>
    have hnil : db.categories.filter (fun x => x.name == name) = [] := by
      rw [List.filter_eq_nil_iff]
      intro x hx
      exact List.find?_eq_none.mp h x hx
    refine ⟨⟨db.next_category_id, name⟩, ?_, ?_, ?_⟩
    · unfold get_or_create_category
      rw [h]
      simp only
      rw [find?_append_none _ _ h]
      simp [List.find?]
    · unfold get_or_create_category
      rw [h]
    · unfold get_or_create_category
      rw [h]
      simp only [countNamed, List.filter_append, hnil]
      simp

/-- C5: calling get_or_create_category with one name N >= 1 times returns
the same id every time (the returned id list is constant) and leaves exactly
one category row with that name, provided the store respects the UNIQUE
constraint to begin with (at most one row with the name). -/
theorem get_or_create_idempotent (db : DB) (name : String) (n : Nat)
    (hwf : countNamed db name ≤ 1) (hn : 1 ≤ n) :
    ∃ i : Nat, (gocN n name db).1 = List.replicate n i ∧
      countNamed (gocN n name db).2 name = 1 := by
  obtain ⟨m, rfl⟩ : ∃ m, n = m + 1 := ⟨n - 1, by omega⟩
  obtain ⟨c, hfind, hid, hcount⟩ := goc_after db name hwf
  refine ⟨c.id, ?_, ?_⟩
  · simp only [gocN, gocN_stable hfind m, List.replicate_succ]
    simp [hid]
  · simp only [gocN, gocN_stable hfind m]
    exact hcount

/-- C5 witness: three calls on the empty store return the same fresh id and
leave exactly one row named Eng. -/
theorem get_or_create_idempotent_witness :
    countNamed emptyDB "Eng" ≤ 1 ∧ 1 ≤ 3 ∧
    ∃ i : Nat, (gocN 3 "Eng" emptyDB).1 = List.replicate 3 i ∧
      countNamed (gocN 3 "Eng" emptyDB).2 "Eng" = 1 :=
  ⟨by decide, by decide,
    get_or_create_idempotent emptyDB "Eng" 3 (by decide) (by decide)⟩

/-! ## C4: the scheduling-table state machine -/

/-- The store operations that touch the scheduled_posts table (the scheduler
only ever applies mark_published and mark_failed to it, so any interleaving
of runs and user commands is a word over these operations). -/
inductive SchedOp where
  | schedule (content category_name scheduled_for : String)
      (article_url : Option String) (visibility : String)
  | markPublished (id : Nat) (urn : String)
  | markFailed (id : Nat) (err : String)
  | deleteScheduled (id : Nat)

/-- Effect of one operation on the store. -/
def applyOp : SchedOp → DB → DB
  | SchedOp.schedule c cn sf url vis, db => (schedule_post c cn sf url vis db).2
  | SchedOp.markPublished i urn, db => mark_published i urn db
  | SchedOp.markFailed i e, db => mark_failed i e db
  | SchedOp.deleteScheduled i, db => (delete_scheduled i db).2

/-- Effect of a sequence of operations, first to last. -/
def applyOps (ops : List SchedOp) (db : DB) : DB :=
  ops.foldl (fun d op => applyOp op d) db

/-- No scheduled row with the given id is pending. -/
def noPendingAt (db : DB) (i : Nat) : Prop :=
  ∀ r ∈ db.scheduled, r.id = i → r.status ≠ "pending"

/-- Every scheduled row id is below the next AUTOINCREMENT id (true of every
store SQLite builds, since ids are assigned increasingly and never reused). -/
def schedIdsBelow (db : DB) : Prop :=
  ∀ r ∈ db.scheduled, r.id < db.next_scheduled_id

instance (db : DB) (i : Nat) : Decidable (noPendingAt db i) :=
  inferInstanceAs (Decidable (∀ r ∈ db.scheduled, r.id = i → r.status ≠ "pending"))

instance (db : DB) : Decidable (schedIdsBelow db) :=
  inferInstanceAs (Decidable (∀ r ∈ db.scheduled, r.id < db.next_scheduled_id))

theorem mark_published_below (i : Nat) (urn : String) (db : DB)
    (hb : schedIdsBelow db) : schedIdsBelow (mark_published i urn db) := by
  intro r hr
  obtain ⟨r0, hr0, heq⟩ := List.mem_map.mp hr
  have hid : r.id = r0.id := by
    by_cases hj : (r0.id == i) = true
    · rw [if_pos hj] at heq
      rw [← heq]
    · rw [if_neg hj] at heq
      rw [← heq]
  rw [show (mark_published i urn db).next_scheduled_id = db.next_scheduled_id from rfl]
  rw [hid]
  exact hb r0 hr0

theorem mark_failed_below (i : Nat) (err : String) (db : DB)
    (hb : schedIdsBelow db) : schedIdsBelow (mark_failed i err db) := by
  intro r hr
  obtain ⟨r0, hr0, heq⟩ := List.mem_map.mp hr
  have hid : r.id = r0.id := by
    by_cases hj : (r0.id == i) = true
    · rw [if_pos hj] at heq
      rw [← heq]
    · rw [if_neg hj] at heq
      rw [← heq]
  rw [show (mark_failed i err db).next_scheduled_id = db.next_scheduled_id from rfl]
  rw [hid]
  exact hb r0 hr0

theorem mark_published_noPending (i : Nat) (urn : String) (db : DB) :
    noPendingAt (mark_published i urn db) i := by
  intro r hr hid
  obtain ⟨r0, hr0, heq⟩ := List.mem_map.mp hr
  by_cases hj : (r0.id == i) = true
  · rw [if_pos hj] at heq
    rw [← heq]
    exact (by decide : ("published" : String) ≠ "pending")
  · rw [if_neg hj] at heq
    rw [← heq] at hid
    exact absurd (by simp [hid]) hj

theorem mark_failed_noPending (i : Nat) (err : String) (db : DB) :
    noPendingAt (mark_failed i err db) i := by
  intro r hr hid
  obtain ⟨r0, hr0, heq⟩ := List.mem_map.mp hr
  by_cases hj : (r0.id == i) = true
  · rw [if_pos hj] at heq
    rw [← heq]
    exact (by decide : ("failed" : String) ≠ "pending")
  · rw [if_neg hj] at heq
    rw [← heq] at hid
    exact absurd (by simp [hid]) hj

theorem applyOp_preserves (op : SchedOp) (db : DB) (i : Nat)
    (hb : schedIdsBelow db) (hi : i < db.next_scheduled_id)
    (hnp : noPendingAt db i) :
    schedIdsBelow (applyOp op db) ∧ i < (applyOp op db).next_scheduled_id ∧
      noPendingAt (applyOp op db) i := by
  cases op with
  | schedule c cn sf url vis =>
    refine ⟨?_, Nat.lt_succ_of_lt hi, ?_⟩
    · intro r hr
      simp only [applyOp, schedule_post] at hr ⊢
      rcases List.mem_append.mp hr with h | h
      · exact Nat.lt_succ_of_lt (hb r h)
      · simp only [List.mem_singleton] at h
        rw [h]
        exact Nat.lt_succ_self _
    · intro r hr hid
      simp only [applyOp, schedule_post] at hr
      rcases List.mem_append.mp hr with h | h
      · exact hnp r h hid
      · simp only [List.mem_singleton] at h
        rw [h] at hid
        have hcon : db.next_scheduled_id = i := hid
        exfalso
        omega
  | markPublished j urn =>
    refine ⟨mark_published_below j urn db hb, hi, ?_⟩
    intro r hr hid
    obtain ⟨r0, hr0, heq⟩ := List.mem_map.mp hr
    by_cases hj : (r0.id == j) = true
    · rw [if_pos hj] at heq
      rw [← heq]
      exact (by decide : ("published" : String) ≠ "pending")
    · rw [if_neg hj] at heq
      rw [← heq] at hid ⊢
      exact hnp r0 hr0 hid
  | markFailed j e =>
    refine ⟨mark_failed_below j e db hb, hi, ?_⟩
    intro r hr hid
    obtain ⟨r0, hr0, heq⟩ := List.mem_map.mp hr
    by_cases hj : (r0.id == j) = true
    · rw [if_pos hj] at heq
      rw [← heq]
      exact (by decide : ("failed" : String) ≠ "pending")
    · rw [if_neg hj] at heq
      rw [← heq] at hid ⊢
      exact hnp r0 hr0 hid
  | deleteScheduled j =>
    refine ⟨?_, hi, ?_⟩
    · intro r hr
      exact hb r (List.mem_of_mem_filter hr)
    · intro r hr hid
      exact hnp r (List.mem_of_mem_filter hr) hid

theorem applyOps_preserves (ops : List SchedOp) :
    ∀ (db : DB) (i : Nat), schedIdsBelow db → i < db.next_scheduled_id →
      noPendingAt db i →
      schedIdsBelow (applyOps ops db) ∧
        i < (applyOps ops db).next_scheduled_id ∧
        noPendingAt (applyOps ops db) i := by
  induction ops with
  | nil => exact fun db i hb hi hnp => ⟨hb, hi, hnp⟩
  | cons op rest ih =>
    intro db i hb hi hnp
    obtain ⟨h1, h2, h3⟩ := applyOp_preserves op db i hb hi hnp
    exact ih (applyOp op db) i h1 h2 h3

theorem delete_scheduled_false_of_noPending (db : DB) (i : Nat)
    (hnp : noPendingAt db i) : (delete_scheduled i db).1 = false := by
  simp only [delete_scheduled]
  have hfix : db.scheduled.filter
      (fun r => !(r.id == i && r.status == "pending")) = db.scheduled := by
    rw [List.filter_eq_self]
    intro r hr
    by_cases h : r.id = i
    · have hst := hnp r hr h
      simp [h, hst]
    · simp [h]
  rw [hfix]
  simp

/-- C4: once mark_published or mark_failed has been applied to an existing
scheduled row, its id never carries status pending again under any further
sequence of scheduling-table operations, and delete_scheduled on that id
returns false (the DELETE only touches rows whose status is currently
pending).  The well-formedness hypothesis is that every row id is below the
next AUTOINCREMENT id, which SQLite maintains. -/
theorem terminal_status_is_forever (db : DB) (i : Nat) (urn err : String)
    (ops : List SchedOp) (hb : schedIdsBelow db)
    (hex : ∃ r ∈ db.scheduled, r.id = i) :
    (∀ r ∈ (applyOps ops (mark_published i urn db)).scheduled,
      r.id = i → r.status ≠ "pending") ∧
    (delete_scheduled i (applyOps ops (mark_published i urn db))).1 = false ∧
    (∀ r ∈ (applyOps ops (mark_failed i err db)).scheduled,
      r.id = i → r.status ≠ "pending") ∧
    (delete_scheduled i (applyOps ops (mark_failed i err db))).1 = false := by
  obtain ⟨r0, hr0, hid0⟩ := hex
  have hi : i < db.next_scheduled_id := hid0 ▸ hb r0 hr0
  obtain ⟨hp1, hp2, hp3⟩ := applyOps_preserves ops (mark_published i urn db) i
    (mark_published_below i urn db hb) hi (mark_published_noPending i urn db)
  obtain ⟨hf1, hf2, hf3⟩ := applyOps_preserves ops (mark_failed i err db) i
    (mark_failed_below i err db hb) hi (mark_failed_noPending i err db)
  exact ⟨hp3, delete_scheduled_false_of_noPending _ i hp3,
    hf3, delete_scheduled_false_of_noPending _ i hf3⟩

/-- C4 witness store: one pending scheduled row with id 1. -/
def dbC4 : DB :=
  { emptyDB with
    scheduled := [⟨1, "Hello", "Eng", none, "PUBLIC", "2026-02-11T09:00:00",
      "pending", none, none⟩],
    next_scheduled_id := 2 }

/-- C4 witness: after marking row 1, a concrete run of further operations
(schedule another post, attempt a cancel, mark again) never returns id 1 to
pending, and cancelling id 1 reports false. -/
theorem terminal_status_is_forever_witness :
    schedIdsBelow dbC4 ∧ (∃ r ∈ dbC4.scheduled, r.id = 1) ∧
    ((∀ r ∈ (applyOps [SchedOp.schedule "b" "Misc" "2027-01-01T00:00:00" none "PUBLIC",
        SchedOp.deleteScheduled 1, SchedOp.markFailed 1 "late"]
        (mark_published 1 "urn:li:share:1" dbC4)).scheduled,
      r.id = 1 → r.status ≠ "pending") ∧
    (delete_scheduled 1 (applyOps [SchedOp.schedule "b" "Misc" "2027-01-01T00:00:00" none "PUBLIC",
        SchedOp.deleteScheduled 1, SchedOp.markFailed 1 "late"]
        (mark_published 1 "urn:li:share:1" dbC4))).1 = false ∧
    (∀ r ∈ (applyOps [SchedOp.schedule "b" "Misc" "2027-01-01T00:00:00" none "PUBLIC",
        SchedOp.deleteScheduled 1, SchedOp.markFailed 1 "late"]
        (mark_failed 1 "boom" dbC4)).scheduled,
      r.id = 1 → r.status ≠ "pending") ∧
    (delete_scheduled 1 (applyOps [SchedOp.schedule "b" "Misc" "2027-01-01T00:00:00" none "PUBLIC",
        SchedOp.deleteScheduled 1, SchedOp.markFailed 1 "late"]
        (mark_failed 1 "boom" dbC4))).1 = false) :=
  ⟨by decide, by decide,
    terminal_status_is_forever dbC4 1 "urn:li:share:1" "boom"
      [SchedOp.schedule "b" "Misc" "2027-01-01T00:00:00" none "PUBLIC",
        SchedOp.deleteScheduled 1, SchedOp.markFailed 1 "late"]
      (by decide) (by decide)⟩

/-! ## C2 and C9: the publish run -/

/-- The terminal status writes a run performed on one scheduled id, in
order. -/
def writesFor (i : Nat) (log : List (Nat × String)) : List (Nat × String) :=
  log.filter (fun w => w.1 == i)

theorem writesFor_cons_ne {i j : Nat} (s : String) (l : List (Nat × String))
    (h : j ≠ i) : writesFor i ((j, s) :: l) = writesFor i l := by
  simp [writesFor, List.filter_cons, h]

theorem writesFor_cons_eq (i : Nat) (s : String) (l : List (Nat × String)) :
    writesFor i ((i, s) :: l) = (i, s) :: writesFor i l := by
  simp [writesFor, List.filter_cons]

theorem processDue_writes_not_mem (pub : SchedRow → Except String String)
    (now_iso : String) :
    ∀ (due : List SchedRow) (db : DB) (i : Nat),
      i ∉ due.map (fun r => r.id) →
      writesFor i (processDue pub now_iso due db).log = [] := by
  intro due
  induction due with
  | nil => intro db i _; rfl
  | cons post rest ih =>
    intro db i hmem
    simp only [List.map_cons, List.mem_cons, not_or] at hmem
    obtain ⟨hne, hrest⟩ := hmem
    have hne2 : post.id ≠ i := fun h => hne h.symm
    cases hpub : pub post with
    | error e =>
      simp only [processDue, hpub]
      rw [writesFor_cons_ne _ _ hne2]
      exact ih _ i hrest
    | ok urn =>
      rcases hsp : save_post urn post.category_name post.content post.article_url
          post.visibility now_iso (mark_published post.id urn db) with ⟨res, db2⟩
      cases res with
      | ok pid =>
        simp only [processDue, hpub, hsp]
        rw [writesFor_cons_ne _ _ hne2]
        exact ih _ i hrest
      | error e =>
        simp only [processDue, hpub, hsp]
        rw [writesFor_cons_ne _ _ hne2, writesFor_cons_ne _ _ hne2]
        exact ih _ i hrest

theorem processDue_counts (pub : SchedRow → Except String String)
    (now_iso : String) :
    ∀ (due : List SchedRow) (db : DB),
      (processDue pub now_iso due db).published +
        (processDue pub now_iso due db).failed = due.length := by
  intro due
  induction due with
  | nil => intro db; rfl
  | cons post rest ih =>
    intro db
    cases hpub : pub post with
    | error e =>
      simp only [processDue, hpub, List.length_cons]
      have h := ih (mark_failed post.id e db)
      omega
    | ok urn =>
      rcases hsp : save_post urn post.category_name post.content post.article_url
          post.visibility now_iso (mark_published post.id urn db) with ⟨res, db2⟩
      cases res with
      | ok pid =>
        simp only [processDue, hpub, hsp, List.length_cons]
        have h := ih db2
        omega
      | error e =>
        simp only [processDue, hpub, hsp, List.length_cons]
        have h := ih (mark_failed post.id e db2)
        omega

theorem filter_cons_ne_nil {α : Type} (p : α → Bool) (x : α) {l : List α}
    (h : l.filter p ≠ []) : (x :: l).filter p ≠ [] := by
  rw [List.filter_cons]
  by_cases hp : p x = true
  · simp [hp]
  · simp only [hp]
    simpa using h

theorem processDue_all_written (pub : SchedRow → Except String String)
    (now_iso : String) :
    ∀ (due : List SchedRow) (db : DB), ∀ post ∈ due,
      writesFor post.id (processDue pub now_iso due db).log ≠ [] := by
  intro due
  induction due with
  | nil => intro db post hmem; simp at hmem
  | cons head rest ih =>
    intro db post hmem
    rcases List.mem_cons.mp hmem with rfl | hmem2
    · cases hpub : pub post with
      | error e =>
        simp only [processDue, hpub]
        rw [writesFor_cons_eq]
        simp
      | ok urn =>
        rcases hsp : save_post urn post.category_name post.content post.article_url
            post.visibility now_iso (mark_published post.id urn db) with ⟨res, db2⟩
        cases res with
        | ok pid =>
          simp only [processDue, hpub, hsp]
          rw [writesFor_cons_eq]
          simp
        | error e =>
          simp only [processDue, hpub, hsp]
          rw [writesFor_cons_eq]
          simp
    · cases hpub : pub head with
      | error e =>
        simp only [processDue, hpub]
        simp only [writesFor, List.filter_cons]
        by_cases hp : ((head.id, "failed").1 == post.id) = true
        · simp [hp]
        · simp only [hp]
          exact ih _ post hmem2
      | ok urn =>
        rcases hsp : save_post urn head.category_name head.content head.article_url
            head.visibility now_iso (mark_published head.id urn db) with ⟨res, db2⟩
        cases res with
        | ok pid =>
          simp only [processDue, hpub, hsp]
          simp only [writesFor, List.filter_cons]
          by_cases hp : ((head.id, "published").1 == post.id) = true
          · simp [hp]
          · simp only [hp]
            exact ih _ post hmem2
        | error e =>
          simp only [processDue, hpub, hsp]
          have h3 := ih (mark_failed head.id e db2) post hmem2
          simp only [writesFor, List.filter_cons] at h3 ⊢
          by_cases hp : (head.id == post.id) = true
          · simp [hp]
          · simp only [hp]
            simpa using h3

theorem goc_scheduled_eq (name : String) (db : DB) :
    (get_or_create_category name db).2.scheduled = db.scheduled := by
  unfold get_or_create_category
  cases h : db.categories.find? (fun c => c.name == name) <;> simp

theorem save_post_scheduled_eq (urn cat prev : String) (url : Option String)
    (vis now : String) (db : DB) :
    (save_post urn cat prev url vis now db).2.scheduled = db.scheduled := by
  simp only [save_post]
  by_cases h : (get_or_create_category cat db).2.posts.any
      (fun p => p.linkedin_urn == urn) = true
  · simp [h, goc_scheduled_eq]
  · simp [h, goc_scheduled_eq]

theorem mark_failed_rowAt (i : Nat) (e : String) (db : DB) :
    ∀ r ∈ (mark_failed i e db).scheduled, r.id = i →
      r.status = "failed" ∧ r.error_message = some e := by
  intro r hr hid
  obtain ⟨r0, hr0, heq⟩ := List.mem_map.mp hr
  by_cases hj : (r0.id == i) = true
  · rw [if_pos hj] at heq
    rw [← heq]
    exact ⟨rfl, rfl⟩
  · rw [if_neg hj] at heq
    rw [← heq] at hid
    exact absurd (by simp [hid]) hj

theorem mark_published_rowAt (i : Nat) (u : String) (db : DB) :
    ∀ r ∈ (mark_published i u db).scheduled, r.id = i →
      r.status = "published" ∧ r.linkedin_urn = some u := by
  intro r hr hid
  obtain ⟨r0, hr0, heq⟩ := List.mem_map.mp hr
  by_cases hj : (r0.id == i) = true
  · rw [if_pos hj] at heq
    rw [← heq]
    exact ⟨rfl, rfl⟩
  · rw [if_neg hj] at heq
    rw [← heq] at hid
    exact absurd (by simp [hid]) hj

theorem mark_failed_preserves_other {j i : Nat} {e : String} {db : DB}
    (P : SchedRow → Prop) (hne : j ≠ i)
    (h : ∀ r ∈ db.scheduled, r.id = i → P r) :
    ∀ r ∈ (mark_failed j e db).scheduled, r.id = i → P r := by
  intro r hr hid
  obtain ⟨r0, hr0, heq⟩ := List.mem_map.mp hr
  by_cases hj : (r0.id == j) = true
  · rw [if_pos hj] at heq
    have hid0 : r0.id = i := by rw [← heq] at hid; exact hid
    have hj2 : r0.id = j := by simpa using hj
    exact absurd (by rw [← hj2]; exact hid0) hne
  · rw [if_neg hj] at heq
    rw [← heq] at hid ⊢
    exact h r0 hr0 hid

theorem mark_published_preserves_other {j i : Nat} {u : String} {db : DB}
    (P : SchedRow → Prop) (hne : j ≠ i)
    (h : ∀ r ∈ db.scheduled, r.id = i → P r) :
    ∀ r ∈ (mark_published j u db).scheduled, r.id = i → P r := by
  intro r hr hid
  obtain ⟨r0, hr0, heq⟩ := List.mem_map.mp hr
  by_cases hj : (r0.id == j) = true
  · rw [if_pos hj] at heq
    have hid0 : r0.id = i := by rw [← heq] at hid; exact hid
    have hj2 : r0.id = j := by simpa using hj
    exact absurd (by rw [← hj2]; exact hid0) hne
  · rw [if_neg hj] at heq
    rw [← heq] at hid ⊢
    exact h r0 hr0 hid

/-- The store state after one iteration of the publish loop on one due item
(a helper characterising the loop one step at a time, used to push facts
through the remainder of a run). -/
def stepDB (pub : SchedRow → Except String String) (now_iso : String)
    (head : SchedRow) (db : DB) : DB :=
  match pub head with
  | Except.error e => mark_failed head.id e db
  | Except.ok urn =>
    match save_post urn head.category_name head.content head.article_url
        head.visibility now_iso (mark_published head.id urn db) with
    | (Except.ok _, db2) => db2
    | (Except.error e, db2) => mark_failed head.id e db2

theorem processDue_cons_db (pub : SchedRow → Except String String)
    (now_iso : String) (head : SchedRow) (rest : List SchedRow) (db : DB) :
    (processDue pub now_iso (head :: rest) db).db =
      (processDue pub now_iso rest (stepDB pub now_iso head db)).db := by
  cases hpub : pub head with
  | error e => simp [processDue, stepDB, hpub]
  | ok urn =>
    rcases hsp : save_post urn head.category_name head.content head.article_url
        head.visibility now_iso (mark_published head.id urn db) with ⟨res, db2⟩
    cases res with
    | ok pid => simp [processDue, stepDB, hpub, hsp]
    | error e => simp [processDue, stepDB, hpub, hsp]

theorem processDue_cons_writes (pub : SchedRow → Except String String)
    (now_iso : String) (head : SchedRow) (rest : List SchedRow) (db : DB)
    {i : Nat} (hne : head.id ≠ i) :
    writesFor i (processDue pub now_iso (head :: rest) db).log =
      writesFor i (processDue pub now_iso rest (stepDB pub now_iso head db)).log := by
  cases hpub : pub head with
  | error e =>
    simp only [processDue, stepDB, hpub]
    rw [writesFor_cons_ne _ _ hne]
  | ok urn =>
    rcases hsp : save_post urn head.category_name head.content head.article_url
        head.visibility now_iso (mark_published head.id urn db) with ⟨res, db2⟩
    cases res with
    | ok pid =>
      simp only [processDue, stepDB, hpub, hsp]
      rw [writesFor_cons_ne _ _ hne]
    | error e =>
      simp only [processDue, stepDB, hpub, hsp]
      rw [writesFor_cons_ne _ _ hne, writesFor_cons_ne _ _ hne]

theorem stepDB_preserves_other (pub : SchedRow → Except String String)
    (now_iso : String) (head : SchedRow) (db : DB) {i : Nat}
    (P : SchedRow → Prop) (hne : head.id ≠ i)
    (h : ∀ r ∈ db.scheduled, r.id = i → P r) :
    ∀ r ∈ (stepDB pub now_iso head db).scheduled, r.id = i → P r := by
  cases hpub : pub head with
  | error e =>
    simp only [stepDB, hpub]
    exact mark_failed_preserves_other P hne h
  | ok urn =>
    rcases hsp : save_post urn head.category_name head.content head.article_url
        head.visibility now_iso (mark_published head.id urn db) with ⟨res, db2⟩
    have hbase : ∀ r ∈ db2.scheduled, r.id = i → P r := by
      have hsched : db2.scheduled = (mark_published head.id urn db).scheduled := by
        have h7 := save_post_scheduled_eq urn head.category_name head.content
          head.article_url head.visibility now_iso (mark_published head.id urn db)
        rw [hsp] at h7
        exact h7
      intro r hr hid
      rw [hsched] at hr
      exact mark_published_preserves_other P hne h r hr hid
    cases res with
    | ok pid =>
      simp only [stepDB, hpub, hsp]
      exact hbase
    | error e =>
      simp only [stepDB, hpub, hsp]
      exact mark_failed_preserves_other P hne hbase

theorem processDue_preserves_row (pub : SchedRow → Except String String)
    (now_iso : String) (P : SchedRow → Prop) :
    ∀ (due : List SchedRow) (db : DB) {i : Nat},
      i ∉ due.map (fun r => r.id) →
      (∀ r ∈ db.scheduled, r.id = i → P r) →
      ∀ r ∈ (processDue pub now_iso due db).db.scheduled, r.id = i → P r := by
  intro due
  induction due with
  | nil => intro db i _ h; exact h
  | cons head rest ih =>
    intro db i hmem h
    simp only [List.map_cons, List.mem_cons, not_or] at hmem
    obtain ⟨hne0, hrest⟩ := hmem
    have hne : head.id ≠ i := fun hh => hne0 hh.symm
    rw [processDue_cons_db]
    exact ih _ hrest (stepDB_preserves_other pub now_iso head db P hne h)

theorem processDue_item_spec (pub : SchedRow → Except String String)
    (now_iso : String) :
    ∀ (due : List SchedRow) (db : DB), ∀ post ∈ due,
      (due.map (fun r => r.id)).Nodup →
      ∃ db1 : DB,
        (∀ e, pub post = Except.error e →
          writesFor post.id (processDue pub now_iso due db).log =
            [(post.id, "failed")] ∧
          ∀ r ∈ (processDue pub now_iso due db).db.scheduled, r.id = post.id →
            r.status = "failed" ∧ r.error_message = some e) ∧
        (∀ u, pub post = Except.ok u →
          (∀ pid, (save_post u post.category_name post.content post.article_url
              post.visibility now_iso (mark_published post.id u db1)).1 =
              Except.ok pid →
            writesFor post.id (processDue pub now_iso due db).log =
              [(post.id, "published")] ∧
            ∀ r ∈ (processDue pub now_iso due db).db.scheduled, r.id = post.id →
              r.status = "published" ∧ r.linkedin_urn = some u) ∧
          (∀ e, (save_post u post.category_name post.content post.article_url
              post.visibility now_iso (mark_published post.id u db1)).1 =
              Except.error e →
            writesFor post.id (processDue pub now_iso due db).log =
              [(post.id, "published"), (post.id, "failed")] ∧
            ∀ r ∈ (processDue pub now_iso due db).db.scheduled, r.id = post.id →
              r.status = "failed" ∧ r.error_message = some e)) := by
  intro due
  induction due with
  | nil => intro db post hmem; simp at hmem
  | cons head rest ih =>
    intro db post hmem hnodup
    simp only [List.map_cons, List.nodup_cons] at hnodup
    obtain ⟨hhead, hrest⟩ := hnodup
    rcases List.mem_cons.mp hmem with rfl | hmem2
    · refine ⟨db, ?_, ?_⟩
      · intro e hpub
        constructor
        · simp only [processDue, hpub]
          rw [writesFor_cons_eq,
            processDue_writes_not_mem pub now_iso rest _ post.id hhead]
        · rw [processDue_cons_db]
          have hstep : stepDB pub now_iso post db = mark_failed post.id e db := by
            simp [stepDB, hpub]
          rw [hstep]
          exact processDue_preserves_row pub now_iso _ rest _ hhead
            (mark_failed_rowAt post.id e db)
      · intro u hpub
        rcases hsp : save_post u post.category_name post.content post.article_url
            post.visibility now_iso (mark_published post.id u db) with ⟨res, db2⟩
        constructor
        · intro pid hpid
          have hres : res = Except.ok pid := hpid
          subst hres
          constructor
          · simp only [processDue, hpub, hsp]
            rw [writesFor_cons_eq,
              processDue_writes_not_mem pub now_iso rest _ post.id hhead]
          · rw [processDue_cons_db]
            have hstep : stepDB pub now_iso post db = db2 := by
              simp [stepDB, hpub, hsp]
            rw [hstep]
            refine processDue_preserves_row pub now_iso _ rest db2 hhead ?_
            have hsched : db2.scheduled =
                (mark_published post.id u db).scheduled := by
              have h7 := save_post_scheduled_eq u post.category_name post.content
                post.article_url post.visibility now_iso
                (mark_published post.id u db)
              rw [hsp] at h7
              exact h7
            intro r hr hid
            rw [hsched] at hr
            exact mark_published_rowAt post.id u db r hr hid
        · intro e he
          have hres : res = Except.error e := he
          subst hres
          constructor
          · simp only [processDue, hpub, hsp]
            rw [writesFor_cons_eq, writesFor_cons_eq,
              processDue_writes_not_mem pub now_iso rest _ post.id hhead]
          · rw [processDue_cons_db]
            have hstep : stepDB pub now_iso post db = mark_failed post.id e db2 := by
              simp [stepDB, hpub, hsp]
            rw [hstep]
            exact processDue_preserves_row pub now_iso _ rest _ hhead
              (mark_failed_rowAt post.id e db2)
    · have hne : head.id ≠ post.id :=
        fun h => hhead (h ▸ List.mem_map_of_mem (fun r => r.id) hmem2)
      obtain ⟨db1, hA, hB⟩ := ih (stepDB pub now_iso head db) post hmem2 hrest
      refine ⟨db1, ?_, ?_⟩
      · intro e hp
        obtain ⟨hw, hrow⟩ := hA e hp
        refine ⟨?_, ?_⟩
        · rw [processDue_cons_writes pub now_iso head rest db hne]
          exact hw
        · rw [processDue_cons_db]
          exact hrow
      · intro u hp
        obtain ⟨h1, h2⟩ := hB u hp
        refine ⟨?_, ?_⟩
        · intro pid hpid
          obtain ⟨hw, hrow⟩ := h1 pid hpid
          refine ⟨?_, ?_⟩
          · rw [processDue_cons_writes pub now_iso head rest db hne]
            exact hw
          · rw [processDue_cons_db]
            exact hrow
        · intro e2 he2
          obtain ⟨hw, hrow⟩ := h2 e2 he2
          refine ⟨?_, ?_⟩
          · rw [processDue_cons_writes pub now_iso head rest db hne]
            exact hw
          · rw [processDue_cons_db]
            exact hrow

theorem get_due_posts_pending :
    ∀ (db : DB) (now : String), ∀ r ∈ get_due_posts db now,
      r.status = "pending" := by
  intro db now r hr
  unfold get_due_posts at hr
  have hmem := (List.perm_insertionSort _ _).mem_iff.mp hr
  have hp := List.of_mem_filter hmem
  simp only [Bool.and_eq_true, beq_iff_eq] at hp
  exact hp.1

/-- C2 counterexample store: one tracked post already carries urn "u1", and
one pending scheduled post is due. -/
def dbC2x : DB :=
  { emptyDB with
    posts := [⟨1, "u1", none, "x", none, "PUBLIC", "2026-01-01T00:00:00"⟩],
    next_post_id := 2,
    scheduled := [⟨1, "Hello", "Eng", none, "PUBLIC", "2026-02-10T09:00:00",
      "pending", none, none⟩],
    next_scheduled_id := 2 }

/-- C2 counterexample publisher: the publish succeeds, returning a urn that
collides with the already-tracked post. -/
def pubC2x : SchedRow → Except String String := fun _ => Except.ok "u1"

/-- C2 counterexample: within one publish_due_posts run the due item 1
undergoes TWO terminal status writes, published and then failed — the
publish call succeeds and mark_published runs, then the save_post tracking
insert hits the urn UNIQUE constraint, the exception lands in the except
branch and mark_failed runs on the same item.  This refutes the claim that
no item undergoes more than one terminal status write per run. -/
theorem publish_double_write_counterexample :
    get_due_posts dbC2x "2026-02-11 00:00:00" = dbC2x.scheduled ∧
    (writesFor 1 (publish_due_posts pubC2x "2026-02-11 00:00:00"
      "2026-02-11T01:00:00" dbC2x).log) = [(1, "published"), (1, "failed")] := by
  decide

/-- C2 amended: within one publish_due_posts run, each due item receives
exactly one terminal status write — failed when the publisher fails (the
item ends failed with the error stored), published when the publisher
succeeds and the save_post tracking insert performed for the item succeeds
(the item ends published carrying the returned urn) — except that when the
publish succeeds and that save_post insert fails, and only then, the item is
written published and then failed, ending in status failed with the
save_post error stored.  A failed item is never retried automatically: any
run selects only rows whose status is pending.  The witnessed store `db1` is
the store state at the moment the item is processed, so the save_post
expression below is exactly the tracking insert the run performs for the
item. -/
theorem publish_single_terminal_write (pub : SchedRow → Except String String)
    (now_sql now_iso : String) (db : DB)
    (hnodup : ((get_due_posts db now_sql).map (fun r => r.id)).Nodup) :
    (∀ post ∈ get_due_posts db now_sql, ∃ db1 : DB,
      (∀ e, pub post = Except.error e →
        writesFor post.id (publish_due_posts pub now_sql now_iso db).log =
          [(post.id, "failed")] ∧
        ∀ r ∈ (publish_due_posts pub now_sql now_iso db).db.scheduled,
          r.id = post.id → r.status = "failed" ∧ r.error_message = some e) ∧
      (∀ u, pub post = Except.ok u →
        (∀ pid, (save_post u post.category_name post.content post.article_url
            post.visibility now_iso (mark_published post.id u db1)).1 =
            Except.ok pid →
          writesFor post.id (publish_due_posts pub now_sql now_iso db).log =
            [(post.id, "published")] ∧
          ∀ r ∈ (publish_due_posts pub now_sql now_iso db).db.scheduled,
            r.id = post.id → r.status = "published" ∧ r.linkedin_urn = some u) ∧
        (∀ e, (save_post u post.category_name post.content post.article_url
            post.visibility now_iso (mark_published post.id u db1)).1 =
            Except.error e →
          writesFor post.id (publish_due_posts pub now_sql now_iso db).log =
            [(post.id, "published"), (post.id, "failed")] ∧
          ∀ r ∈ (publish_due_posts pub now_sql now_iso db).db.scheduled,
            r.id = post.id → r.status = "failed" ∧ r.error_message = some e))) ∧
    (∀ (db2 : DB) (now2 : String), ∀ r ∈ get_due_posts db2 now2,
      r.status = "pending") :=
  ⟨fun post hmem =>
    processDue_item_spec pub now_iso (get_due_posts db now_sql) db post hmem
      hnodup,
  get_due_posts_pending⟩

/-- C2 witness store: two pending due items with distinct ids. -/
def dbC2w : DB :=
  { emptyDB with
    scheduled := [⟨1, "a", "Eng", none, "PUBLIC", "2026-02-10T09:00:00",
      "pending", none, none⟩,
      ⟨2, "b", "Eng", none, "PUBLIC", "2026-02-10T10:00:00",
      "pending", none, none⟩],
    next_scheduled_id := 3 }

/-- C2 witness publisher: item 1 fails at the publisher, item 2 succeeds. -/
def pubC2w : SchedRow → Except String String := fun r =>
  if r.id == 1 then Except.error "rate limit" else Except.ok "urn:li:share:42"

/-- C2 witness: in a concrete run the item whose publish fails receives
exactly the single terminal write failed, and its row ends failed with the
stringified error stored. -/
theorem publish_single_terminal_write_witness :
    ((get_due_posts dbC2w "2026-02-11 00:00:00").map (fun r => r.id)).Nodup ∧
    (writesFor 1 (publish_due_posts pubC2w "2026-02-11 00:00:00"
        "2026-02-11T01:00:00" dbC2w).log = [(1, "failed")] ∧
      ∀ r ∈ (publish_due_posts pubC2w "2026-02-11 00:00:00"
          "2026-02-11T01:00:00" dbC2w).db.scheduled,
        r.id = 1 → r.status = "failed" ∧ r.error_message = some "rate limit") :=
  ⟨by decide, by
    have hmem : (⟨1, "a", "Eng", none, "PUBLIC", "2026-02-10T09:00:00",
        "pending", none, none⟩ : SchedRow) ∈
        get_due_posts dbC2w "2026-02-11 00:00:00" := by decide
    obtain ⟨db1, hA, hB⟩ :=
      (publish_single_terminal_write pubC2w "2026-02-11 00:00:00"
        "2026-02-11T01:00:00" dbC2w (by decide)).1 _ hmem
    exact hA "rate limit" rfl⟩

/-- C9: a publish_due_posts run returns counts with
published + failed = number of due items; every due row is processed to a
terminal write even when earlier items fail, so one failure never aborts the
batch; and a publisher failure on a due item triggers exactly the
mark_failed write on that item, whose row ends failed with the stringified
error stored as its error message (the `Except.error` payload is the
`str(e)` of the raised exception). -/
theorem publish_reports_batch_counts (pub : SchedRow → Except String String)
    (now_sql now_iso : String) (db : DB) :
    (publish_due_posts pub now_sql now_iso db).published +
      (publish_due_posts pub now_sql now_iso db).failed =
      (get_due_posts db now_sql).length ∧
    (∀ post ∈ get_due_posts db now_sql,
      writesFor post.id (publish_due_posts pub now_sql now_iso db).log ≠ []) ∧
    (((get_due_posts db now_sql).map (fun r => r.id)).Nodup →
      ∀ post ∈ get_due_posts db now_sql, ∀ e, pub post = Except.error e →
        writesFor post.id (publish_due_posts pub now_sql now_iso db).log =
          [(post.id, "failed")] ∧
        ∀ r ∈ (publish_due_posts pub now_sql now_iso db).db.scheduled,
          r.id = post.id → r.status = "failed" ∧ r.error_message = some e) := by
  refine ⟨processDue_counts pub now_iso (get_due_posts db now_sql) db,
    fun post hmem => processDue_all_written pub now_iso
      (get_due_posts db now_sql) db post hmem,
    fun hnodup post hmem e hpub => ?_⟩
  obtain ⟨db1, hA, _⟩ :=
    processDue_item_spec pub now_iso (get_due_posts db now_sql) db post hmem
      hnodup
  exact hA e hpub

/-- C9 witness: with one failing and one succeeding item the run reports
1 + 1 = 2 processed items, and the failing item received exactly the
mark_failed write. -/
theorem publish_reports_batch_counts_witness :
    ((publish_due_posts pubC2w "2026-02-11 00:00:00" "2026-02-11T01:00:00"
        dbC2w).published +
      (publish_due_posts pubC2w "2026-02-11 00:00:00" "2026-02-11T01:00:00"
        dbC2w).failed =
      (get_due_posts dbC2w "2026-02-11 00:00:00").length) ∧
    writesFor 1 (publish_due_posts pubC2w "2026-02-11 00:00:00"
      "2026-02-11T01:00:00" dbC2w).log = [(1, "failed")] :=
  ⟨(publish_reports_batch_counts pubC2w "2026-02-11 00:00:00"
      "2026-02-11T01:00:00" dbC2w).1, by
    have h := (publish_reports_batch_counts pubC2w "2026-02-11 00:00:00"
      "2026-02-11T01:00:00" dbC2w).2.2 (by decide)
      (⟨1, "a", "Eng", none, "PUBLIC", "2026-02-10T09:00:00",
        "pending", none, none⟩ : SchedRow)
      (by decide) "rate limit" rfl
    exact h.1⟩


/-! ## C3: latest-snapshot correctness -/

/-- The latest snapshot of one post as the specification words it: a
snapshot of the post whose fetched_at is at least that of every snapshot of
the post (unique when the timestamps are distinct). -/
def latestSnapshot (db : DB) (pid : Nat) : Option Snapshot :=
  (snapshotsOf db pid).find?
    (fun s => decide (∀ t ∈ snapshotsOf db pid,
      textLe t.fetched_at s.fetched_at = true))

/-- Category totals as the specification words them: per post only the
latest snapshot contributes, and a post with no snapshot contributes
zero. -/
def specLatestTotal (db : DB) (cid : Nat) (f : Snapshot → Nat) : Nat :=
  ((postsOf db cid).map (fun p => ((latestSnapshot db p.id).map f).getD 0)).sum

/-- Within each post, snapshot timestamps are pairwise distinct. -/
def perPostDistinctTimes (db : DB) : Prop :=
  ∀ s ∈ db.snapshots,
    ((snapshotsOf db s.post_id).map (fun t => t.fetched_at)).Nodup

instance (db : DB) : Decidable (perPostDistinctTimes db) :=
  List.decidableBAll
    (fun s : Snapshot =>
      ((snapshotsOf db s.post_id).map (fun t : Snapshot => t.fetched_at)).Nodup)
    db.snapshots

theorem perPost_distinct_all {db : DB} (h : perPostDistinctTimes db)
    (pid : Nat) :
    ((snapshotsOf db pid).map (fun t => t.fetched_at)).Nodup := by
  by_cases hc : snapshotsOf db pid = []
  · rw [hc]
    simp
  · obtain ⟨s, hsmem⟩ := List.exists_mem_of_ne_nil _ hc
    have h1 : s ∈ db.snapshots := List.mem_of_mem_filter hsmem
    have h2 := List.of_mem_filter hsmem
    have h3 : s.post_id = pid := by simpa using h2
    have h4 := h s h1
    rwa [h3] at h4

theorem latest_filter_shape (db : DB) (pid : Nat) :
    (latestRows db).filter (fun s => s.post_id == pid) =
      (snapshotsOf db pid).filter
        (fun s => maxFetched db pid == some s.fetched_at) := by
  unfold latestRows snapshotsOf
  rw [List.filter_filter, List.filter_filter]
  apply List.filter_congr
  intro s _
  by_cases hsp : s.post_id = pid
  · rw [hsp]
    exact Bool.and_comm _ _
  · have hb : (s.post_id == pid) = false := by simp [hsp]
    rw [hb]
    simp

theorem latest_contribution (db : DB) (pid : Nat)
    (hdist : ((snapshotsOf db pid).map (fun t => t.fetched_at)).Nodup)
    (f : Snapshot → Nat) :
    (((latestRows db).filter (fun s => s.post_id == pid)).map f).sum =
      ((latestSnapshot db pid).map f).getD 0 := by
  rw [latest_filter_shape]
  by_cases hnil : snapshotsOf db pid = []
  · unfold latestSnapshot
    rw [hnil]
    simp
  · have hm : ∃ m, maxFetched db pid = some m := by
      cases hmm : maxFetched db pid with
      | none =>
        exfalso
        unfold maxFetched at hmm
        rw [listMax_eq_none, List.map_eq_nil_iff] at hmm
        exact hnil hmm
      | some m => exact ⟨m, rfl⟩
    obtain ⟨m, hm⟩ := hm
    have hm2 : listMax ((snapshotsOf db pid).map (fun t => t.fetched_at)) =
        some m := hm
    have hmmem : m ∈ (snapshotsOf db pid).map (fun t => t.fetched_at) :=
      listMax_mem hm2
    obtain ⟨x, hxmem, hxm⟩ := List.mem_map.mp hmmem
    have hfilter : (snapshotsOf db pid).filter
        (fun s => maxFetched db pid == some s.fetched_at) = [x] := by
      have hcongr : (snapshotsOf db pid).filter
          (fun s => maxFetched db pid == some s.fetched_at) =
          (snapshotsOf db pid).filter
            (fun s => s.fetched_at == x.fetched_at) := by
        apply List.filter_congr
        intro s _
        rw [hm, hxm]
        by_cases h : s.fetched_at = m
        · simp [h]
        · simp [h, Ne.symm h]
      rw [hcongr]
      exact filter_map_nodup_eq (fun t => t.fetched_at) hdist hxmem
    have hlatest : latestSnapshot db pid = some x := by
      unfold latestSnapshot
      apply find?_unique _ hxmem
      · simp only [decide_eq_true_eq]
        intro t ht
        have h5 := listMax_le
          (List.mem_map_of_mem (fun t => t.fetched_at) ht) hm2
        rw [hxm]
        exact h5
      · intro y hymem hy
        simp only [decide_eq_true_eq] at hy
        have hyx : textLe x.fetched_at y.fetched_at = true := hy x hxmem
        have hxy : textLe y.fetched_at x.fetched_at = true := by
          have h6 := listMax_le
            (List.mem_map_of_mem (fun t => t.fetched_at) hymem) hm2
          rw [hxm]
          exact h6
        have hfeq : y.fetched_at = x.fetched_at := textLe_antisymm hxy hyx
        exact eq_of_mem_map_nodup (fun t => t.fetched_at) hdist hxmem hymem hfeq
    rw [hfilter, hlatest]
    simp

/-- C3: for a post whose snapshots sit at three strictly increasing
timestamps, get_latest_metrics returns the third snapshot, and for every
category the aggregate totals of get_category_stats sum, per post, only the
values of that post's latest snapshot — a post with no snapshot contributing
zero — never a sum across a post's history. -/
theorem latest_snapshot_only (db : DB) (p : Post) (s1 s2 s3 : Snapshot)
    (hurns : (db.posts.map (fun q => q.linkedin_urn)).Nodup)
    (hp : p ∈ db.posts)
    (hsnaps : snapshotsOf db p.id = [s1, s2, s3])
    (h12 : textLt s1.fetched_at s2.fetched_at = true)
    (h23 : textLt s2.fetched_at s3.fetched_at = true)
    (hdist : perPostDistinctTimes db) :
    get_latest_metrics p.linkedin_urn db = some s3 ∧
    ∀ (cid : Nat) (f : Snapshot → Nat),
      sumLatest db cid f = specLatestTotal db cid f := by
  have h13 : textLt s1.fetched_at s3.fetched_at = true := lexLt_trans h12 h23
  have hne13 : s1.fetched_at ≠ s3.fetched_at := textLt_ne h13
  have hne23 : s2.fetched_at ≠ s3.fetched_at := textLt_ne h23
  constructor
  · have hfind : db.posts.find? (fun q => q.linkedin_urn == p.linkedin_urn) =
        some p := by
      apply find?_unique _ hp
      · simp
      · intro x hx hpx
        simp only [beq_iff_eq] at hpx
        exact eq_of_mem_map_nodup (fun q => q.linkedin_urn) hurns hp hx hpx
    have hmax : maxFetched db p.id = some s3.fetched_at := by
      unfold maxFetched
      rw [hsnaps]
      simp [listMax, h23, h13]
    unfold get_latest_metrics
    rw [hfind]
    show (snapshotsOf db p.id).find?
      (fun s => maxFetched db p.id == some s.fetched_at) = some s3
    rw [hmax, hsnaps]
    apply find?_unique
    · simp
    · simp
    · intro x hx hpx
      simp only [List.mem_cons, List.not_mem_nil, or_false] at hx
      simp only [beq_iff_eq, Option.some.injEq] at hpx
      rcases hx with rfl | rfl | rfl
      · exact absurd hpx.symm hne13
      · exact absurd hpx.symm hne23
      · rfl
  · intro cid f
    unfold sumLatest specLatestTotal
    congr 1
    apply List.map_congr_left
    intro q _
    exact latest_contribution db q.id (perPost_distinct_all hdist q.id) f

/-- C3 witness store: one category owning a post with three snapshots at
increasing timestamps, and a snapshotless post in another category. -/
def dbC3 : DB :=
  { emptyDB with
    categories := [⟨1, "Eng"⟩, ⟨2, "Misc"⟩],
    posts := [⟨1, "u1", some 1, "p1", none, "PUBLIC", "2026-01-01T00:00:00"⟩,
      ⟨2, "u2", some 2, "p2", none, "PUBLIC", "2026-01-02T00:00:00"⟩],
    snapshots := [⟨1, 1, "2026-01-03 00:00:00", 1, 1, 0, 0, 0, 0, 0⟩,
      ⟨2, 1, "2026-01-04 00:00:00", 2, 0, 1, 0, 0, 0, 0⟩,
      ⟨3, 1, "2026-01-05 00:00:00", 7, 1, 2, 3, 4, 0, 0⟩],
    next_category_id := 3, next_post_id := 3, next_snapshot_id := 4 }

/-- C3 witness: in the concrete store, get_latest_metrics returns the third
snapshot and every category total agrees with the latest-only sums. -/
theorem latest_snapshot_only_witness :
    (dbC3.posts.map (fun q => q.linkedin_urn)).Nodup ∧
    snapshotsOf dbC3 1 = [⟨1, 1, "2026-01-03 00:00:00", 1, 1, 0, 0, 0, 0, 0⟩,
      ⟨2, 1, "2026-01-04 00:00:00", 2, 0, 1, 0, 0, 0, 0⟩,
      ⟨3, 1, "2026-01-05 00:00:00", 7, 1, 2, 3, 4, 0, 0⟩] ∧
    perPostDistinctTimes dbC3 ∧
    (get_latest_metrics "u1" dbC3 =
      some ⟨3, 1, "2026-01-05 00:00:00", 7, 1, 2, 3, 4, 0, 0⟩ ∧
    ∀ (cid : Nat) (f : Snapshot → Nat),
      sumLatest dbC3 cid f = specLatestTotal dbC3 cid f) :=
  ⟨by decide, by decide, by decide,
    latest_snapshot_only dbC3
      ⟨1, "u1", some 1, "p1", none, "PUBLIC", "2026-01-01T00:00:00"⟩
      ⟨1, 1, "2026-01-03 00:00:00", 1, 1, 0, 0, 0, 0, 0⟩
      ⟨2, 1, "2026-01-04 00:00:00", 2, 0, 1, 0, 0, 0, 0⟩
      ⟨3, 1, "2026-01-05 00:00:00", 7, 1, 2, 3, 4, 0, 0⟩
      (by decide) (by decide) (by decide) (by decide) (by decide) (by decide)⟩

end Poster
